import Mathlib

/-!
Shallow embedding of the id-contact `auth-test` mock attribute-disclosure
provider (`src/config.rs` and `src/main.rs`).

Strings are modelled as lists of bytes (their UTF-8 encodings), so `Bytes`
stands for both Rust `String`/`&str` and `Vec<u8>`/`&[u8]`.  `HashMap` is
modelled as an association list with replace-on-insert semantics.  External
collaborators (the askama template, the josekit/id_contact_jwt crypto
capability, the reqwest HTTP client) are abstracted exactly where the source
delegates to them: the crypto step is an explicit function parameter, the
out-of-band POST outcome is an explicit input, and the confirm endpoints are
modelled by the `dologin` link they hand to the trusted template.
-/

namespace AuthTest

/-- Byte strings: a Rust `String`, `&str`, `Vec<u8>` or `&[u8]` is modelled
as its byte sequence. -/
abbrev Bytes := List Nat

/-- Association-list model of `std::collections::HashMap<String, String>`. -/
abbrev StrMap := List (Bytes × Bytes)

/-- Bytes of an ASCII string literal (used only on pure-ASCII literals, where
the UTF-8 encoding is one byte per character). -/
def asciiBytes (s : String) : Bytes := s.toList.map Char.toNat

/-- Model of `HashMap::get`. -/
def hmGet : StrMap → Bytes → Option Bytes
  | [], _ => none
  | p :: rest, k => if p.1 = k then some p.2 else hmGet rest k

/-- Model of `HashMap::insert`: replaces the value at an existing key,
otherwise adds the binding. -/
def hmInsert : StrMap → Bytes → Bytes → StrMap
  | [], k, v => [(k, v)]
  | p :: rest, k, v => if p.1 = k then (k, v) :: rest else p :: hmInsert rest k v

/-- Model of `config::Error` (src/config.rs lines 9-15).  The payloads of the
wrapped external errors (serde_yaml, serde_json, josekit) are abstracted to
byte strings. -/
inductive ConfigError where
  | UnknownAttribute (attr : Bytes)
  | YamlError (msg : Bytes)
  | Json (msg : Bytes)
  | JWT (msg : Bytes)
deriving DecidableEq, Repr

/-- Model of `config::Config` (src/config.rs lines 103-111).  The `encrypter`
and `signer` capabilities are out of scope (external josekit objects) and are
replaced by the explicit crypto function passed to the handlers.
`internal_url` — Modelled from the spec: main.rs calls `config.internal_url()`
(lines 168 and 213) but the getter is absent from the provided config.rs; the
spec describes it as "an internal/base URL used for the session-notification
callback", i.e. one more string field loaded from configuration. -/
structure Config where
  server_url : Bytes
  internal_url : Bytes
  attributes : StrMap
  with_session : Bool
deriving DecidableEq, Repr

/-- Model of `Config::verify_attributes` (src/config.rs lines 127-133):
scan the requested names in order and fail with `UnknownAttribute` at the
first name absent from the catalog. -/
def Config.verify_attributes (cfg : Config) : List Bytes → Except ConfigError Unit
  | [] => .ok ()
  | a :: rest =>
    match hmGet cfg.attributes a with
    | none => .error (.UnknownAttribute a)
    | some _ => cfg.verify_attributes rest

/-- Loop of `Config::map_attributes` (src/config.rs lines 135-142): the
`result` accumulator receives `result.insert(attribute.clone(), value.clone())`
for each requested name in order, failing at the first unknown name. -/
def mapAttributesFrom (cfg : Config) (result : StrMap) :
    List Bytes → Except ConfigError StrMap
  | [] => .ok result
  | a :: rest =>
    match hmGet cfg.attributes a with
    | none => .error (.UnknownAttribute a)
    | some v => mapAttributesFrom cfg (hmInsert result a v) rest

/-- Model of `Config::map_attributes` (src/config.rs lines 135-142). -/
def Config.map_attributes (cfg : Config) (attributes : List Bytes) :
    Except ConfigError StrMap :=
  mapAttributesFrom cfg [] attributes

/-! ## Base64 (URL-safe alphabet, no padding)

Model of the `base64` crate's `encode_config`/`decode_config` with
`URL_SAFE_NO_PAD` as used throughout main.rs.  Encoding maps byte triples to
four alphabet bytes (with two- and three-character tails for one or two
trailing bytes); decoding inverts this and, like the crate, rejects inputs of
length 1 mod 4, bytes outside the alphabet, and non-zero trailing bits. -/

/-- The URL-safe base64 alphabet, as bytes. -/
def b64Alphabet : Bytes :=
  asciiBytes "ABCDEFGHIJKLMNOPQRSTUVWXYZabcdefghijklmnopqrstuvwxyz0123456789-_"

/-- Alphabet byte of a six-bit value. -/
def b64Char (i : Nat) : Nat := b64Alphabet.getD i 0

/-- Position of a byte in a byte list. -/
def idxIn : Bytes → Nat → Option Nat
  | [], _ => none
  | c :: rest, b => if c = b then some 0 else (idxIn rest b).map (· + 1)

/-- Six-bit value of an alphabet byte, `none` outside the alphabet. -/
def b64Index (b : Nat) : Option Nat := idxIn b64Alphabet b

/-- Model of `base64::encode_config(_, URL_SAFE_NO_PAD)`. -/
def b64Encode : Bytes → Bytes
  | a :: b :: c :: rest =>
    b64Char (a / 4) :: b64Char ((a % 4) * 16 + b / 16) ::
      b64Char ((b % 16) * 4 + c / 64) :: b64Char (c % 64) :: b64Encode rest
  | [a, b] => [b64Char (a / 4), b64Char ((a % 4) * 16 + b / 16), b64Char ((b % 16) * 4)]
  | [a] => [b64Char (a / 4), b64Char ((a % 4) * 16)]
  | [] => []

/-- Model of `base64::decode_config(_, URL_SAFE_NO_PAD)`. -/
def b64Decode : Bytes → Option Bytes
  | [] => some []
  | [_] => none
  | [c1, c2] =>
    match b64Index c1, b64Index c2 with
    | some i1, some i2 =>
      if i2 % 16 = 0 then some [i1 * 4 + i2 / 16] else none
    | _, _ => none
  | [c1, c2, c3] =>
    match b64Index c1, b64Index c2, b64Index c3 with
    | some i1, some i2, some i3 =>
      if i3 % 4 = 0 then some [i1 * 4 + i2 / 16, (i2 % 16) * 16 + i3 / 4] else none
    | _, _, _ => none
  | c1 :: c2 :: c3 :: c4 :: rest =>
    match b64Index c1, b64Index c2, b64Index c3, b64Index c4, b64Decode rest with
    | some i1, some i2, some i3, some i4, some bs =>
      some ((i1 * 4 + i2 / 16) :: ((i2 % 16) * 16 + i3 / 4) :: ((i3 % 4) * 64 + i4) :: bs)
    | _, _, _, _, _ => none

/-! ## JSON codec for the attribute-name list

Model of `serde_json::to_vec::<Vec<String>>` (start_authentication, main.rs
line 249) and `serde_json::from_slice::<Vec<String>>` (user_inline line 207,
user_oob line 162), at the byte level.  The serializer emits
`["name","name"]` with serde_json's compact escaping (`\"`, `\\`, `\b`, `\t`,
`\n`, `\f`, `\r`, and `\u00XX` with lowercase hex for the remaining control
bytes; all other bytes pass through).  The parser is serde's deserializer
restricted to the grammar the serializer emits: in particular a `\uXXXX`
escape is mapped to a single byte, which agrees with serde for the code
points below 0x80 that the serializer can produce. -/

/-- Lowercase hex digit byte, as in serde_json's hex table. -/
def hexDigitByte (n : Nat) : Nat := if n < 10 then 0x30 + n else 0x61 + (n - 10)

/-- JSON string escaping of one byte (serde_json's escape table). -/
def jsonEscapeByte (b : Nat) : Bytes :=
  if b = 0x22 then [0x5C, 0x22]
  else if b = 0x5C then [0x5C, 0x5C]
  else if b = 0x08 then [0x5C, 0x62]
  else if b = 0x09 then [0x5C, 0x74]
  else if b = 0x0A then [0x5C, 0x6E]
  else if b = 0x0C then [0x5C, 0x66]
  else if b = 0x0D then [0x5C, 0x72]
  else if b < 0x20 then [0x5C, 0x75, 0x30, 0x30, hexDigitByte (b / 16), hexDigitByte (b % 16)]
  else [b]

/-- Serialized bytes of the second and later elements of the array (each
preceded by a comma), ending with the closing bracket. -/
def jsonEncodeRest : List Bytes → Bytes
  | [] => [0x5D]
  | s :: rest => 0x2C :: 0x22 :: (s.flatMap jsonEscapeByte ++ (0x22 :: jsonEncodeRest rest))

/-- Model of `serde_json::to_vec(&attributes)` for a list of names. -/
def jsonEncodeAttrNames : List Bytes → Bytes
  | [] => [0x5B, 0x5D]
  | s :: rest => 0x5B :: 0x22 :: (s.flatMap jsonEscapeByte ++ (0x22 :: jsonEncodeRest rest))

/-- Value of a single-character JSON escape. -/
def unescapeByte (e : Nat) : Option Nat :=
  if e = 0x22 then some 0x22
  else if e = 0x5C then some 0x5C
  else if e = 0x2F then some 0x2F
  else if e = 0x62 then some 0x08
  else if e = 0x74 then some 0x09
  else if e = 0x6E then some 0x0A
  else if e = 0x66 then some 0x0C
  else if e = 0x72 then some 0x0D
  else none

/-- Value of a hex digit byte. -/
def hexVal (b : Nat) : Option Nat :=
  if 0x30 ≤ b ∧ b ≤ 0x39 then some (b - 0x30)
  else if 0x61 ≤ b ∧ b ≤ 0x66 then some (b - 0x61 + 10)
  else if 0x41 ≤ b ∧ b ≤ 0x46 then some (b - 0x41 + 10)
  else none

mutual

/-- Parse the body of a JSON string element (the opening quote already
consumed); `acc` is the reversed content so far.  On the closing quote,
continue with the rest of the array. -/
def pElem : Bytes → Bytes → Option (List Bytes)
  | [], _ => none
  | b :: rest, acc =>
    if b = 0x22 then pAfter rest acc
    else if b = 0x5C then
      match rest with
      | [] => none
      | e :: rest2 =>
        if e = 0x75 then
          match rest2 with
          | h1 :: h2 :: h3 :: h4 :: rest3 =>
            match hexVal h1, hexVal h2, hexVal h3, hexVal h4 with
            | some v1, some v2, some v3, some v4 =>
              pElem rest3 ((((v1 * 16 + v2) * 16 + v3) * 16 + v4) :: acc)
            | _, _, _, _ => none
          | _ => none
        else
          match unescapeByte e with
          | some c => pElem rest2 (c :: acc)
          | none => none
    else pElem rest (b :: acc)

/-- After a closed string element (reversed content `acc`): expect either a
comma and the next string, or the closing bracket ending the input. -/
def pAfter : Bytes → Bytes → Option (List Bytes)
  | 0x2C :: 0x22 :: rest, acc => (pElem rest []).map (fun l => acc.reverse :: l)
  | [0x5D], acc => some [acc.reverse]
  | _, _ => none

end

/-- Model of `serde_json::from_slice::<Vec<String>>`, restricted to the
compact grammar `jsonEncodeAttrNames` emits. -/
def parseAttrNames : Bytes → Option (List Bytes)
  | [0x5B, 0x5D] => some []
  | 0x5B :: 0x22 :: rest => pElem rest []
  | _ => none

/-! ## UTF-8 validation

Model of `std::str::from_utf8`: a byte string is a valid `&str` exactly when
it is well-formed UTF-8 (correct continuation bytes, no overlong forms, no
surrogates, nothing above U+10FFFF). -/

/-- Continuation byte test. -/
def utf8Cont (b : Nat) : Bool := 0x80 ≤ b && b ≤ 0xBF

/-- Well-formedness of a UTF-8 byte sequence (the check performed by
`std::str::from_utf8`). -/
def isValidUtf8 : Bytes → Bool
  | [] => true
  | b :: rest =>
    if b ≤ 0x7F then isValidUtf8 rest
    else if 0xC2 ≤ b && b ≤ 0xDF then
      match rest with
      | b2 :: r => utf8Cont b2 && isValidUtf8 r
      | [] => false
    else if b = 0xE0 then
      match rest with
      | b2 :: b3 :: r => (0xA0 ≤ b2 && b2 ≤ 0xBF) && utf8Cont b3 && isValidUtf8 r
      | _ => false
    else if (0xE1 ≤ b && b ≤ 0xEC) || b = 0xEE || b = 0xEF then
      match rest with
      | b2 :: b3 :: r => utf8Cont b2 && utf8Cont b3 && isValidUtf8 r
      | _ => false
    else if b = 0xED then
      match rest with
      | b2 :: b3 :: r => (0x80 ≤ b2 && b2 ≤ 0x9F) && utf8Cont b3 && isValidUtf8 r
      | _ => false
    else if b = 0xF0 then
      match rest with
      | b2 :: b3 :: b4 :: r =>
        (0x90 ≤ b2 && b2 ≤ 0xBF) && utf8Cont b3 && utf8Cont b4 && isValidUtf8 r
      | _ => false
    else if 0xF1 ≤ b && b ≤ 0xF3 then
      match rest with
      | b2 :: b3 :: b4 :: r => utf8Cont b2 && utf8Cont b3 && utf8Cont b4 && isValidUtf8 r
      | _ => false
    else if b = 0xF4 then
      match rest with
      | b2 :: b3 :: b4 :: r =>
        (0x80 ≤ b2 && b2 ≤ 0x8F) && utf8Cont b3 && utf8Cont b4 && isValidUtf8 r
      | _ => false
    else false

/-! ## Protocol data and handlers (main.rs) -/

/-- Model of main.rs's `Error` (lines 20-28).  Payloads of externally
produced errors are abstracted; the josekit error message is kept as bytes. -/
inductive MainError where
  | Config (e : ConfigError)
  | Decode
  | Template
  | Json
  | Utf
  | Jwt (msg : Bytes)
deriving DecidableEq, Repr

/-- Status of an `id_contact_proto::AuthResult`; this service only ever
produces `Success`. -/
inductive AuthStatus where
  | Success
  | Failed
deriving DecidableEq, Repr

/-- Model of `id_contact_proto::AuthResult` as constructed in main.rs. -/
structure AuthResult where
  status : AuthStatus
  attributes : Option StrMap
  session_url : Option Bytes
deriving DecidableEq, Repr

/-- The `AuthResult` value built identically by `user_oob` (main.rs lines
164-172) and `user_inline` (lines 209-217). -/
def buildAuthResult (cfg : Config) (attributes : StrMap) : AuthResult :=
  { status := .Success
    attributes := some attributes
    session_url :=
      if cfg.with_session then
        some (cfg.internal_url ++ asciiBytes "/session/update")
      else none }

/-- A `rocket::response::Redirect`, reduced to its target URL. -/
structure Redirect where
  target : Bytes
deriving DecidableEq, Repr

/-- Abstract capability for `id_contact_jwt::sign_and_encrypt_auth_result`
with the configured signer and encrypter (external crates): from an
`AuthResult` to either an error message or the compact token string. -/
abbrev SignEncrypt := AuthResult → Except Bytes Bytes

/-- Outcome of the out-of-band `reqwest` POST (external collaborator). -/
inductive PostOutcome where
  | success
  | failure
deriving DecidableEq, Repr

/-- Externally visible effects of `user_oob`, in chronological order. -/
inductive Effect where
  | post (url : Bytes) (body : Bytes) (outcome : PostOutcome)
  | redirectTo (url : Bytes)
deriving DecidableEq, Repr

/-- Model of `user_inline` (main.rs lines 200-239): decode and parse the
attribute segment, resolve the attributes, build and protect the
`AuthResult`, decode the continuation, then redirect to the continuation
with `&result=<token>` appended when it already contains a `?` (0x3F) and
`?result=<token>` otherwise. -/
def user_inline (cfg : Config) (signEncrypt : SignEncrypt)
    (attributes continuation : Bytes) : Except MainError Redirect :=
  match b64Decode attributes with
  | none => .error .Decode
  | some attrBytes =>
    match parseAttrNames attrBytes with
    | none => .error .Json
    | some names =>
      match cfg.map_attributes names with
      | .error e => .error (.Config e)
      | .ok attrs =>
        match signEncrypt (buildAuthResult cfg attrs) with
        | .error m => .error (.Jwt m)
        | .ok auth_result =>
          match b64Decode continuation with
          | none => .error .Decode
          | some contBytes =>
            if isValidUtf8 contBytes then
              if contBytes.contains 0x3F then
                .ok ⟨contBytes ++ (asciiBytes "&result=" ++ auth_result)⟩
              else
                .ok ⟨contBytes ++ (asciiBytes "?result=" ++ auth_result)⟩
            else .error .Utf

/-- Model of `user_oob` (main.rs lines 154-198): the same decode, resolve,
build and protect sequence, then decode the callback (`attr_url`) segment,
POST the token to it — the outcome is only logged — and redirect to the
continuation unchanged.  The result carries the chronological effect trace
together with the returned redirect. -/
def user_oob (cfg : Config) (signEncrypt : SignEncrypt)
    (postOutcome : PostOutcome) (attributes continuation attr_url : Bytes) :
    Except MainError (List Effect × Redirect) :=
  match b64Decode attributes with
  | none => .error .Decode
  | some attrBytes =>
    match parseAttrNames attrBytes with
    | none => .error .Json
    | some names =>
      match cfg.map_attributes names with
      | .error e => .error (.Config e)
      | .ok attrs =>
        match signEncrypt (buildAuthResult cfg attrs) with
        | .error m => .error (.Jwt m)
        | .ok auth_result =>
          match b64Decode continuation with
          | none => .error .Decode
          | some contBytes =>
            if isValidUtf8 contBytes then
              match b64Decode attr_url with
              | none => .error .Decode
              | some urlBytes =>
                if isValidUtf8 urlBytes then
                  .ok ([.post urlBytes auth_result postOutcome, .redirectTo contBytes],
                    ⟨contBytes⟩)
                else .error .Utf
            else .error .Utf

/-- Model of `id_contact_proto::StartAuthRequest`. -/
structure StartAuthRequest where
  attributes : List Bytes
  continuation : Bytes
  attr_url : Option Bytes
deriving DecidableEq, Repr

/-- Model of `id_contact_proto::StartAuthResponse`. -/
structure StartAuthResponse where
  client_url : Bytes
deriving DecidableEq, Repr

/-- Model of `start_authentication` (main.rs lines 241-274): verify the
requested names, base64-encode the JSON attribute list and the continuation
(and the callback URL when present), and return the confirm `client_url`.
(`serde_json::to_vec` on a list of strings cannot fail, so its `?` is a dead
path and the serializer is total here.) -/
def start_authentication (cfg : Config) (request : StartAuthRequest) :
    Except MainError StartAuthResponse :=
  match cfg.verify_attributes request.attributes with
  | .error e => .error (.Config e)
  | .ok _ =>
    let attributes := b64Encode (jsonEncodeAttrNames request.attributes)
    let continuation := b64Encode request.continuation
    match request.attr_url with
    | some attr_url =>
      .ok ⟨cfg.server_url ++ (asciiBytes "/confirm/" ++ attributes ++
        ([0x2F] ++ continuation ++ ([0x2F] ++ b64Encode attr_url)))⟩
    | none =>
      .ok ⟨cfg.server_url ++ (asciiBytes "/confirm/" ++ attributes ++
        ([0x2F] ++ continuation))⟩

/-- Model of `confirm_oob` (main.rs lines 111-129): the `dologin` link handed
to the trusted confirmation template (HTML rendering is an external
collaborator; the page embeds this link verbatim). -/
def confirm_oob (cfg : Config) (attributes continuation attr_url : Bytes) : Bytes :=
  cfg.server_url ++ (asciiBytes "/browser/" ++ attributes ++
    ([0x2F] ++ continuation ++ ([0x2F] ++ attr_url)))

/-- Model of `confirm_ib` (main.rs lines 131-147): the `dologin` link for the
inline variant. -/
def confirm_ib (cfg : Config) (attributes continuation : Bytes) : Bytes :=
  cfg.server_url ++ (asciiBytes "/browser/" ++ attributes ++ ([0x2F] ++ continuation))

/-- Split a byte string at every slash (0x2F), as rocket's router splits a
path into segments. -/
def splitSeg : Bytes → List Bytes
  | [] => [[]]
  | b :: rest =>
    if b = 0x2F then [] :: splitSeg rest
    else
      match splitSeg rest with
      | s :: ss => (b :: s) :: ss
      | [] => [[b]]

/-- Remove an expected leading byte string; `none` when the input does not
start with it. -/
def dropStartBytes : Bytes → Bytes → Option Bytes
  | l, [] => some l
  | [], _ :: _ => none
  | b :: l, q :: p => if b = q then dropStartBytes l p else none

/-- The path segments a delivery link carries after this server's
`/browser/` route root. -/
def browserSegments (cfg : Config) (link : Bytes) : Option (List Bytes) :=
  (dropStartBytes link (cfg.server_url ++ asciiBytes "/browser/")).map splitSeg

/-- A small concrete configuration used by the witness theorems. -/
def sampleConfig : Config :=
  { server_url := asciiBytes "https://auth.example"
    internal_url := asciiBytes "https://internal.example"
    attributes := [(asciiBytes "email", asciiBytes "user@example.com")]
    with_session := true }

/-- A concrete crypto capability used by the witness theorems. -/
def sampleSign : SignEncrypt := fun _ => .ok (asciiBytes "TOKEN")

/-! ## Lemmas about the association-map model -/

theorem hmGet_nil (x : Bytes) : hmGet [] x = none := rfl

theorem hmGet_hmInsert (m : StrMap) (k v x : Bytes) :
    hmGet (hmInsert m k v) x = if x = k then some v else hmGet m x := by
  induction m with
  | nil =>
    rcases eq_or_ne x k with rfl | h
    · simp [hmInsert, hmGet]
    · simp [hmInsert, hmGet, Ne.symm h, h]
  | cons p rest ih =>
    rcases eq_or_ne p.1 k with hk | hk
    · rcases eq_or_ne x k with rfl | h
      · simp [hmInsert, hmGet, hk]
      · have hkx : k ≠ x := fun hh => h hh.symm
        simp [hmInsert, hmGet, hk, h, hkx]
    · simp only [hmInsert, hk, if_false]
      rcases eq_or_ne p.1 x with hx | hx
      · have : x ≠ k := fun hh => hk (hx.trans hh)
        simp [hmGet, hx, this]
      · simp [hmGet, hx, ih]

theorem mem_keys_hmInsert (m : StrMap) (k v x : Bytes) :
    x ∈ (hmInsert m k v).map Prod.fst ↔ x = k ∨ x ∈ m.map Prod.fst := by
  induction m with
  | nil => simp [hmInsert]
  | cons p rest ih =>
    by_cases h : p.1 = k
    · simp only [hmInsert, h, if_true, List.map_cons, List.mem_cons]
      rw [← h]
      tauto
    · simp only [hmInsert, h, if_false, List.map_cons, List.mem_cons, ih]
      tauto

theorem nodup_keys_hmInsert (m : StrMap) (k v : Bytes)
    (h : (m.map Prod.fst).Nodup) : ((hmInsert m k v).map Prod.fst).Nodup := by
  induction m with
  | nil => simp [hmInsert]
  | cons p rest ih =>
    simp only [List.map_cons, List.nodup_cons] at h
    by_cases hk : p.1 = k
    · simp only [hmInsert, hk, if_true, List.map_cons, List.nodup_cons]
      exact ⟨hk ▸ h.1, h.2⟩
    · simp only [hmInsert, hk, if_false, List.map_cons, List.nodup_cons]
      refine ⟨?_, ih h.2⟩
      rw [mem_keys_hmInsert]
      rintro (h1 | h2)
      · exact hk h1
      · exact h.1 h2

theorem hmGet_isSome_iff (m : StrMap) (k : Bytes) :
    (hmGet m k).isSome = true ↔ k ∈ m.map Prod.fst := by
  induction m with
  | nil => simp [hmGet]
  | cons p rest ih =>
    by_cases h : p.1 = k
    · simp [hmGet, h]
    · simp only [hmGet, h, if_false, List.map_cons, List.mem_cons, ih]
      have : ¬ k = p.1 := fun hh => h hh.symm
      tauto

theorem hmGet_of_mem_nodup (m : StrMap) (p : Bytes × Bytes)
    (hnd : (m.map Prod.fst).Nodup) (hp : p ∈ m) : hmGet m p.1 = some p.2 := by
  induction m with
  | nil => cases hp
  | cons q rest ih =>
    simp only [List.map_cons, List.nodup_cons] at hnd
    rcases List.mem_cons.mp hp with rfl | hmem
    · simp [hmGet]
    · have hne : q.1 ≠ p.1 := by
        intro h
        exact hnd.1 (h ▸ List.mem_map_of_mem Prod.fst hmem)
      simp [hmGet, hne, ih hnd.2 hmem]

/-! ## Characterizations of verify_attributes and map_attributes -/

theorem verify_attributes_spec (cfg : Config) (l : List Bytes) :
    cfg.verify_attributes l =
      (match l.find? (fun a => (hmGet cfg.attributes a).isNone) with
        | some bad => .error (.UnknownAttribute bad)
        | none => .ok ()) := by
  induction l with
  | nil => rfl
  | cons a rest ih =>
    cases h : hmGet cfg.attributes a with
    | none =>
      rw [List.find?_cons_of_pos _ (by simp [h])]
      simp [Config.verify_attributes, h]
    | some v =>
      rw [List.find?_cons_of_neg _ (by simp [h])]
      simp only [Config.verify_attributes, h]
      exact ih

theorem mapAttributesFrom_err (cfg : Config) (l : List Bytes) (bad : Bytes) :
    ∀ acc, l.find? (fun a => (hmGet cfg.attributes a).isNone) = some bad →
      mapAttributesFrom cfg acc l = .error (.UnknownAttribute bad) := by
  induction l with
  | nil => intro acc h; simp at h
  | cons a rest ih =>
    intro acc h
    cases hg : hmGet cfg.attributes a with
    | none =>
      rw [List.find?_cons_of_pos _ (by simp [hg])] at h
      have : a = bad := by simpa using h
      subst this
      simp [mapAttributesFrom, hg]
    | some v =>
      rw [List.find?_cons_of_neg _ (by simp [hg])] at h
      simp only [mapAttributesFrom, hg]
      exact ih _ h

theorem mapAttributesFrom_ok (cfg : Config) (l : List Bytes) :
    ∀ acc, (∀ a ∈ l, (hmGet cfg.attributes a).isSome = true) →
      ∃ m, mapAttributesFrom cfg acc l = .ok m ∧
        (∀ x, hmGet m x = if x ∈ l then hmGet cfg.attributes x else hmGet acc x) ∧
        ((acc.map Prod.fst).Nodup → (m.map Prod.fst).Nodup) := by
  induction l with
  | nil =>
    intro acc _
    exact ⟨acc, rfl, by simp [mapAttributesFrom], id⟩
  | cons a rest ih =>
    intro acc hall
    have ha : (hmGet cfg.attributes a).isSome = true := hall a (List.mem_cons_self a rest)
    rcases Option.isSome_iff_exists.mp ha with ⟨v, hv⟩
    rcases ih (hmInsert acc a v) (fun x hx => hall x (List.mem_cons_of_mem a hx)) with
      ⟨m, hm, hget, hnd⟩
    refine ⟨m, ?_, ?_, ?_⟩
    · simp only [mapAttributesFrom, hv]
      exact hm
    · intro x
      rw [hget x, hmGet_hmInsert]
      by_cases hxr : x ∈ rest
      · simp [hxr, List.mem_cons]
      · by_cases hxa : x = a
        · subst hxa
          simp [hxr, hv]
        · simp [hxr, hxa]
    · intro h
      exact hnd (nodup_keys_hmInsert acc a v h)

/-! ## Claims about the attribute catalog -/

/-- C1: for every list of attribute names in which every name is a key of the
attribute catalog, `verify_attributes` succeeds and `map_attributes` returns a
mapping that contains exactly the catalog's value for each requested name and
nothing else. -/
theorem claim_C1 (cfg : Config) (S : List Bytes)
    (h : ∀ a ∈ S, a ∈ cfg.attributes.map Prod.fst) :
    cfg.verify_attributes S = .ok () ∧
    ∃ m, cfg.map_attributes S = .ok m ∧
      (∀ a ∈ S, hmGet m a = hmGet cfg.attributes a) ∧
      (∀ p ∈ m, p.1 ∈ S ∧ hmGet cfg.attributes p.1 = some p.2) := by
  have hall : ∀ a ∈ S, (hmGet cfg.attributes a).isSome = true := fun a ha =>
    (hmGet_isSome_iff _ _).mpr (h a ha)
  have hfind : S.find? (fun a => (hmGet cfg.attributes a).isNone) = none := by
    rw [List.find?_eq_none]
    intro x hx
    rcases Option.isSome_iff_exists.mp (hall x hx) with ⟨v, hv⟩
    simp [hv]
  have hver : cfg.verify_attributes S = .ok () := by
    rw [verify_attributes_spec, hfind]
  rcases mapAttributesFrom_ok cfg S [] hall with ⟨m, hm, hget, hnd⟩
  have hndm : (m.map Prod.fst).Nodup := hnd (by simp)
  refine ⟨hver, m, hm, ?_, ?_⟩
  · intro a ha
    rw [hget a, if_pos ha]
  · intro p hp
    have h1 : hmGet m p.1 = some p.2 := hmGet_of_mem_nodup m p hndm hp
    by_cases hps : p.1 ∈ S
    · refine ⟨hps, ?_⟩
      rw [hget p.1, if_pos hps] at h1
      exact h1
    · rw [hget p.1, if_neg hps, hmGet_nil] at h1
      cases h1

/-- Witness for C1: requesting the catalogued name succeeds concretely. -/
theorem claim_C1_witness :
    Config.verify_attributes sampleConfig [asciiBytes "email"] = .ok () ∧
    ∃ m, Config.map_attributes sampleConfig [asciiBytes "email"] = .ok m ∧
      (∀ a ∈ [asciiBytes "email"], hmGet m a = hmGet sampleConfig.attributes a) ∧
      (∀ p ∈ m, p.1 ∈ [asciiBytes "email"] ∧
        hmGet sampleConfig.attributes p.1 = some p.2) :=
  claim_C1 sampleConfig [asciiBytes "email"] (by decide)

/-- C2: for every request whose attribute list contains at least one name
outside the catalog, `verify_attributes` and `map_attributes` both fail with
`UnknownAttribute` (naming the first such name), and `start_authentication`
returns that failure without producing a client_url. -/
theorem claim_C2 (cfg : Config) (S : List Bytes) (continuation : Bytes)
    (attr_url : Option Bytes) (h : ∃ a ∈ S, hmGet cfg.attributes a = none) :
    ∃ bad, bad ∈ S ∧ hmGet cfg.attributes bad = none ∧
      cfg.verify_attributes S = .error (.UnknownAttribute bad) ∧
      cfg.map_attributes S = .error (.UnknownAttribute bad) ∧
      start_authentication cfg ⟨S, continuation, attr_url⟩ =
        .error (.Config (.UnknownAttribute bad)) := by
  rcases h with ⟨a, ha, hnone⟩
  have hsome : (S.find? (fun x => (hmGet cfg.attributes x).isNone)).isSome = true := by
    rw [List.find?_isSome]
    exact ⟨a, ha, by simp [hnone]⟩
  rcases Option.isSome_iff_exists.mp hsome with ⟨bad, hfind⟩
  have hbadp : (hmGet cfg.attributes bad).isNone = true := by
    simpa using List.find?_some hfind
  have hbadmem : bad ∈ S := List.mem_of_find?_eq_some hfind
  have hver : cfg.verify_attributes S = .error (.UnknownAttribute bad) := by
    rw [verify_attributes_spec, hfind]
  refine ⟨bad, hbadmem, Option.isNone_iff_eq_none.mp hbadp, hver,
    mapAttributesFrom_err cfg S bad [] hfind, ?_⟩
  simp [start_authentication, hver]

/-- Witness for C2: requesting an uncatalogued name fails concretely. -/
theorem claim_C2_witness :
    ∃ bad, bad ∈ [asciiBytes "email", asciiBytes "phone"] ∧
      hmGet sampleConfig.attributes bad = none ∧
      Config.verify_attributes sampleConfig [asciiBytes "email", asciiBytes "phone"] =
        .error (.UnknownAttribute bad) ∧
      Config.map_attributes sampleConfig [asciiBytes "email", asciiBytes "phone"] =
        .error (.UnknownAttribute bad) ∧
      start_authentication sampleConfig
          ⟨[asciiBytes "email", asciiBytes "phone"], asciiBytes "https://rp.example/done", none⟩ =
        .error (.Config (.UnknownAttribute bad)) :=
  claim_C2 sampleConfig [asciiBytes "email", asciiBytes "phone"]
    (asciiBytes "https://rp.example/done") none ⟨asciiBytes "phone", by decide, by decide⟩

/-- C9: when `map_attributes` succeeds on a list that may contain duplicates,
the mapping has one entry per distinct requested name — nodup keys that are
exactly the requested names, with the catalog's value — so its size is the
number of distinct names, not the length of the list. -/
theorem claim_C9 (cfg : Config) (l : List Bytes) (m : StrMap)
    (h : cfg.map_attributes l = .ok m) :
    (m.map Prod.fst).Nodup ∧
    (∀ a, a ∈ m.map Prod.fst ↔ a ∈ l) ∧
    (∀ a ∈ l, hmGet m a = hmGet cfg.attributes a) ∧
    m.length = l.dedup.length := by
  cases hf : l.find? (fun x => (hmGet cfg.attributes x).isNone) with
  | some bad =>
    have herr := mapAttributesFrom_err cfg l bad [] hf
    have h' : mapAttributesFrom cfg [] l = .ok m := h
    rw [herr] at h'
    cases h'
  | none =>
    have hall : ∀ a ∈ l, (hmGet cfg.attributes a).isSome = true := by
      intro a ha
      have hx := List.find?_eq_none.mp hf a ha
      cases hg : hmGet cfg.attributes a with
      | none => rw [hg] at hx; simp at hx
      | some v => simp
    rcases mapAttributesFrom_ok cfg l [] hall with ⟨m', hm', hget, hnd⟩
    have h' : mapAttributesFrom cfg [] l = .ok m := h
    rw [hm'] at h'
    injection h' with hh
    subst hh
    have hnodup : (m'.map Prod.fst).Nodup := hnd (by simp)
    have hkeys : ∀ a, a ∈ m'.map Prod.fst ↔ a ∈ l := by
      intro a
      rw [← hmGet_isSome_iff, hget a]
      by_cases haa : a ∈ l
      · simp [haa, hall a haa]
      · simp [haa, hmGet_nil]
    refine ⟨hnodup, hkeys, ?_, ?_⟩
    · intro a ha
      rw [hget a, if_pos ha]
    · have h1 : (m'.map Prod.fst).toFinset = l.dedup.toFinset := by
        ext a
        simp only [List.mem_toFinset, List.mem_dedup]
        exact hkeys a
      have h2 : (m'.map Prod.fst).length = l.dedup.length := by
        rw [← List.toFinset_card_of_nodup hnodup,
          ← List.toFinset_card_of_nodup (List.nodup_dedup l), h1]
      simpa using h2

/-- Witness for C9: a duplicated request collapses to one entry. -/
theorem claim_C9_witness :
    (([(asciiBytes "email", asciiBytes "user@example.com")].map Prod.fst).Nodup) ∧
    (∀ a, a ∈ [(asciiBytes "email", asciiBytes "user@example.com")].map Prod.fst ↔
      a ∈ [asciiBytes "email", asciiBytes "email"]) ∧
    (∀ a ∈ [asciiBytes "email", asciiBytes "email"],
      hmGet [(asciiBytes "email", asciiBytes "user@example.com")] a =
        hmGet sampleConfig.attributes a) ∧
    [(asciiBytes "email", asciiBytes "user@example.com")].length =
      [asciiBytes "email", asciiBytes "email"].dedup.length :=
  claim_C9 sampleConfig [asciiBytes "email", asciiBytes "email"]
    [(asciiBytes "email", asciiBytes "user@example.com")] (by rfl)

/-- C10: `verify_attributes` succeeds exactly when `map_attributes` does; they
fail with identical errors, and a failure names the first unknown attribute in
list order. -/
theorem claim_C10 (cfg : Config) (l : List Bytes) :
    (cfg.verify_attributes l = .ok () ↔ ∃ m, cfg.map_attributes l = .ok m) ∧
    (∀ e, cfg.verify_attributes l = .error e ↔ cfg.map_attributes l = .error e) ∧
    (∀ a, cfg.verify_attributes l = .error (.UnknownAttribute a) →
      l.find? (fun x => (hmGet cfg.attributes x).isNone) = some a) := by
  cases hf : l.find? (fun x => (hmGet cfg.attributes x).isNone) with
  | none =>
    have hall : ∀ a ∈ l, (hmGet cfg.attributes a).isSome = true := by
      intro a ha
      have hx := List.find?_eq_none.mp hf a ha
      cases hg : hmGet cfg.attributes a with
      | none => rw [hg] at hx; simp at hx
      | some v => simp
    have hver : cfg.verify_attributes l = .ok () := by
      rw [verify_attributes_spec, hf]
    rcases mapAttributesFrom_ok cfg l [] hall with ⟨m, hm, -, -⟩
    have hmap : cfg.map_attributes l = .ok m := hm
    refine ⟨?_, ?_, ?_⟩
    · simp only [hver, hmap, true_iff]
      exact ⟨m, rfl⟩
    · intro e
      rw [hver, hmap]
      constructor
      · intro he; cases he
      · intro he; cases he
    · intro a ha
      rw [hver] at ha
      cases ha
  | some bad =>
    have hver : cfg.verify_attributes l = .error (.UnknownAttribute bad) := by
      rw [verify_attributes_spec, hf]
    have hmap : cfg.map_attributes l = .error (.UnknownAttribute bad) :=
      mapAttributesFrom_err cfg l bad [] hf
    refine ⟨?_, ?_, ?_⟩
    · rw [hver, hmap]
      constructor
      · intro hv; cases hv
      · rintro ⟨m, hm⟩; cases hm
    · intro e
      rw [hver, hmap]
      constructor
      · intro he
        have hbe : ConfigError.UnknownAttribute bad = e := by simpa using he
        rw [hbe]
      · intro he
        have hbe : ConfigError.UnknownAttribute bad = e := by simpa using he
        rw [hbe]
    · intro a ha
      rw [hver] at ha
      have hba : bad = a := by simpa using ha
      rw [hba]

/-! ## Base64 round-trip -/

theorem b64Index_b64Char (i : Nat) (h : i < 64) : b64Index (b64Char i) = some i := by
  have hall : ∀ j : Fin 64, b64Index (b64Char j.val) = some j.val := by decide
  exact hall ⟨i, h⟩

theorem b64_roundtrip : ∀ bs : Bytes, (∀ x ∈ bs, x < 256) →
    b64Decode (b64Encode bs) = some bs
  | [], _ => rfl
  | [a], h => by
    have ha : a < 256 := h a (by simp)
    simp only [b64Encode, b64Decode, b64Index_b64Char (a / 4) (by omega),
      b64Index_b64Char ((a % 4) * 16) (by omega)]
    rw [if_pos (by omega)]
    have e1 : a / 4 * 4 + (a % 4) * 16 / 16 = a := by omega
    rw [e1]
  | [a, b], h => by
    have ha : a < 256 := h a (by simp)
    have hb : b < 256 := h b (by simp)
    simp only [b64Encode, b64Decode, b64Index_b64Char (a / 4) (by omega),
      b64Index_b64Char ((a % 4) * 16 + b / 16) (by omega),
      b64Index_b64Char ((b % 16) * 4) (by omega)]
    rw [if_pos (by omega)]
    have e1 : a / 4 * 4 + ((a % 4) * 16 + b / 16) / 16 = a := by omega
    have e2 : ((a % 4) * 16 + b / 16) % 16 * 16 + (b % 16) * 4 / 4 = b := by omega
    rw [e1, e2]
  | a :: b :: c :: rest, h => by
    have ha : a < 256 := h a (by simp)
    have hb : b < 256 := h b (by simp)
    have hc : c < 256 := h c (by simp)
    have ih := b64_roundtrip rest (fun x hx => h x (by simp [hx]))
    simp only [b64Encode, b64Decode, b64Index_b64Char (a / 4) (by omega),
      b64Index_b64Char ((a % 4) * 16 + b / 16) (by omega),
      b64Index_b64Char ((b % 16) * 4 + c / 64) (by omega),
      b64Index_b64Char (c % 64) (by omega), ih]
    have e1 : a / 4 * 4 + ((a % 4) * 16 + b / 16) / 16 = a := by omega
    have e2 : ((a % 4) * 16 + b / 16) % 16 * 16 + ((b % 16) * 4 + c / 64) / 4 = b := by
      omega
    have e3 : ((b % 16) * 4 + c / 64) % 4 * 64 + c % 64 = c := by omega
    rw [e1, e2, e3]

/-! ## JSON round-trip for the attribute-name list -/

theorem hexVal_hexDigitByte (n : Nat) (h : n < 16) : hexVal (hexDigitByte n) = some n := by
  have hall : ∀ j : Fin 16, hexVal (hexDigitByte j.val) = some j.val := by decide
  exact hall ⟨n, h⟩

theorem pElem_escape_step (b : Nat) (tail acc : Bytes) :
    pElem (jsonEscapeByte b ++ tail) acc = pElem tail (b :: acc) := by
  by_cases h22 : b = 0x22
  · subst h22
    simp only [jsonEscapeByte, if_pos rfl, List.cons_append, List.nil_append]
    rw [pElem.eq_def]
    simp [unescapeByte]
  by_cases h5C : b = 0x5C
  · subst h5C
    simp only [jsonEscapeByte, if_neg h22, if_pos rfl, List.cons_append, List.nil_append]
    rw [pElem.eq_def]
    simp [unescapeByte]
  by_cases h08 : b = 0x08
  · subst h08
    simp only [jsonEscapeByte, if_neg h22, if_neg h5C, if_pos rfl, List.cons_append,
      List.nil_append]
    rw [pElem.eq_def]
    simp [unescapeByte]
  by_cases h09 : b = 0x09
  · subst h09
    simp only [jsonEscapeByte, if_neg h22, if_neg h5C, if_neg h08, if_pos rfl,
      List.cons_append, List.nil_append]
    rw [pElem.eq_def]
    simp [unescapeByte]
  by_cases h0A : b = 0x0A
  · subst h0A
    simp only [jsonEscapeByte, if_neg h22, if_neg h5C, if_neg h08, if_neg h09, if_pos rfl,
      List.cons_append, List.nil_append]
    rw [pElem.eq_def]
    simp [unescapeByte]
  by_cases h0C : b = 0x0C
  · subst h0C
    simp only [jsonEscapeByte, if_neg h22, if_neg h5C, if_neg h08, if_neg h09, if_neg h0A,
      if_pos rfl, List.cons_append, List.nil_append]
    rw [pElem.eq_def]
    simp [unescapeByte]
  by_cases h0D : b = 0x0D
  · subst h0D
    simp only [jsonEscapeByte, if_neg h22, if_neg h5C, if_neg h08, if_neg h09, if_neg h0A,
      if_neg h0C, if_pos rfl, List.cons_append, List.nil_append]
    rw [pElem.eq_def]
    simp [unescapeByte]
  by_cases hct : b < 0x20
  · simp only [jsonEscapeByte, if_neg h22, if_neg h5C, if_neg h08, if_neg h09,
      if_neg h0A, if_neg h0C, if_neg h0D, if_pos hct, List.cons_append, List.nil_append]
    rw [pElem.eq_def]
    simp only [hexVal_hexDigitByte (b / 16) (by omega),
      hexVal_hexDigitByte (b % 16) (by omega), show hexVal 0x30 = some 0 from rfl]
    have hv : b / 16 * 16 + b % 16 = b := by omega
    simp [hv]
  · simp only [jsonEscapeByte, if_neg h22, if_neg h5C, if_neg h08, if_neg h09,
      if_neg h0A, if_neg h0C, if_neg h0D, if_neg hct, List.cons_append, List.nil_append]
    rw [pElem.eq_def]
    simp [h22, h5C]

theorem pElem_escape : ∀ (s : Bytes) (acc rest : Bytes),
    pElem (s.flatMap jsonEscapeByte ++ (0x22 :: rest)) acc = pAfter rest (s.reverse ++ acc)
  | [], acc, rest => by
    simp only [List.flatMap_nil, List.nil_append, List.reverse_nil]
    rw [pElem.eq_def]
    simp
  | b :: s', acc, rest => by
    rw [List.flatMap_cons, List.append_assoc, pElem_escape_step,
      pElem_escape s' (b :: acc) rest]
    simp

theorem pAfter_encodeRest : ∀ (l : List Bytes) (acc : Bytes),
    pAfter (jsonEncodeRest l) acc = some (acc.reverse :: l)
  | [], acc => by
    simp only [jsonEncodeRest]
    rw [pAfter.eq_def]
  | s :: rest, acc => by
    simp only [jsonEncodeRest]
    rw [pAfter.eq_def]
    simp only []
    rw [pElem_escape s [] (jsonEncodeRest rest), pAfter_encodeRest rest (s.reverse ++ [])]
    simp

theorem parseAttrNames_encode (l : List Bytes) :
    parseAttrNames (jsonEncodeAttrNames l) = some l := by
  cases l with
  | nil => rfl
  | cons s rest =>
    simp only [jsonEncodeAttrNames, parseAttrNames]
    rw [pElem_escape s [] (jsonEncodeRest rest), pAfter_encodeRest rest (s.reverse ++ [])]
    simp

theorem jsonEscapeByte_lt (b : Nat) (hb : b < 256) : ∀ x ∈ jsonEscapeByte b, x < 256 := by
  have hd1 : hexDigitByte (b / 16) < 256 := by unfold hexDigitByte; split_ifs <;> omega
  have hd2 : hexDigitByte (b % 16) < 256 := by unfold hexDigitByte; split_ifs <;> omega
  unfold jsonEscapeByte
  split_ifs <;> intro x hx <;> simp at hx <;> omega

theorem jsonEncodeRest_lt (l : List Bytes) (h : ∀ s ∈ l, ∀ x ∈ s, x < 256) :
    ∀ x ∈ jsonEncodeRest l, x < 256 := by
  induction l with
  | nil => intro x hx; simp [jsonEncodeRest] at hx; omega
  | cons s rest ih =>
    intro x hx
    simp only [jsonEncodeRest, List.mem_cons, List.mem_append, List.mem_flatMap] at hx
    rcases hx with rfl | rfl | ⟨⟨b, hb, hxb⟩ | (rfl | hrest)⟩
    · omega
    · omega
    · exact jsonEscapeByte_lt b (h s (by simp) b hb) x hxb
    · omega
    · exact ih (fun t ht => h t (by simp [ht])) x hrest

theorem jsonEncodeAttrNames_lt (l : List Bytes) (h : ∀ s ∈ l, ∀ x ∈ s, x < 256) :
    ∀ x ∈ jsonEncodeAttrNames l, x < 256 := by
  cases l with
  | nil => intro x hx; simp [jsonEncodeAttrNames] at hx; omega
  | cons s rest =>
    intro x hx
    simp only [jsonEncodeAttrNames, List.mem_cons, List.mem_append, List.mem_flatMap] at hx
    rcases hx with rfl | rfl | ⟨⟨b, hb, hxb⟩ | (rfl | hrest)⟩
    · omega
    · omega
    · exact jsonEscapeByte_lt b (h s (by simp) b hb) x hxb
    · omega
    · exact jsonEncodeRest_lt rest (fun t ht => h t (by simp [ht])) x hrest

/-! ## Claims about the request codec -/

/-- C3: the segment codec round-trips — decoding the URL-safe unpadded base64
segment produced by encoding yields the input back, both for the attribute
list (which additionally round-trips through JSON) and for a URL byte
string. -/
theorem claim_C3 (names : List Bytes) (url : Bytes)
    (hn : ∀ s ∈ names, ∀ x ∈ s, x < 256) (hu : ∀ x ∈ url, x < 256) :
    (b64Decode (b64Encode (jsonEncodeAttrNames names))).bind parseAttrNames = some names ∧
    b64Decode (b64Encode url) = some url := by
  refine ⟨?_, b64_roundtrip url hu⟩
  rw [b64_roundtrip (jsonEncodeAttrNames names) (jsonEncodeAttrNames_lt names hn)]
  simp [parseAttrNames_encode]

/-- Witness for C3: the segments of the end-to-end example round-trip. -/
theorem claim_C3_witness :
    (b64Decode (b64Encode (jsonEncodeAttrNames [asciiBytes "email"]))).bind parseAttrNames =
      some [asciiBytes "email"] ∧
    b64Decode (b64Encode (asciiBytes "https://rp.example/back")) =
      some (asciiBytes "https://rp.example/back") :=
  claim_C3 [asciiBytes "email"] (asciiBytes "https://rp.example/back")
    (by decide) (by decide)

/-! ## Claims about the delivery handlers -/

/-- C4: the inline delivery redirect is the continuation with the token
appended as `&result=<token>` when the continuation contains a `?` (0x3F) and
as `?result=<token>` when it does not. -/
theorem claim_C4 (cfg : Config) (signEncrypt : SignEncrypt) (names : List Bytes)
    (continuation : Bytes) (attrs : StrMap) (token : Bytes)
    (hn : ∀ s ∈ names, ∀ x ∈ s, x < 256) (hc : ∀ x ∈ continuation, x < 256)
    (hv : isValidUtf8 continuation = true)
    (hm : cfg.map_attributes names = .ok attrs)
    (hs : signEncrypt (buildAuthResult cfg attrs) = .ok token) :
    (continuation.contains 0x3F = false →
      user_inline cfg signEncrypt (b64Encode (jsonEncodeAttrNames names))
          (b64Encode continuation) =
        .ok ⟨continuation ++ (asciiBytes "?result=" ++ token)⟩) ∧
    (continuation.contains 0x3F = true →
      user_inline cfg signEncrypt (b64Encode (jsonEncodeAttrNames names))
          (b64Encode continuation) =
        .ok ⟨continuation ++ (asciiBytes "&result=" ++ token)⟩) := by
  have h1 : b64Decode (b64Encode (jsonEncodeAttrNames names)) =
      some (jsonEncodeAttrNames names) :=
    b64_roundtrip _ (jsonEncodeAttrNames_lt names hn)
  have h2 : b64Decode (b64Encode continuation) = some continuation := b64_roundtrip _ hc
  have h3 := parseAttrNames_encode names
  constructor
  · intro hq
    have hq' : ¬ (0x3F ∈ continuation) := by simpa using hq
    simp [user_inline, h1, h2, h3, hm, hs, hv, hq, hq']
  · intro hq
    have hq' : 0x3F ∈ continuation := by simpa using hq
    simp [user_inline, h1, h2, h3, hm, hs, hv, hq, hq']

/-- Witness for C4: both redirect shapes at concrete continuations. -/
theorem claim_C4_witness :
    user_inline sampleConfig sampleSign (b64Encode (jsonEncodeAttrNames [asciiBytes "email"]))
        (b64Encode (asciiBytes "https://rp.example/back")) =
      .ok ⟨asciiBytes "https://rp.example/back" ++
        (asciiBytes "?result=" ++ asciiBytes "TOKEN")⟩ ∧
    user_inline sampleConfig sampleSign (b64Encode (jsonEncodeAttrNames [asciiBytes "email"]))
        (b64Encode (asciiBytes "https://rp.example/back?x=1")) =
      .ok ⟨asciiBytes "https://rp.example/back?x=1" ++
        (asciiBytes "&result=" ++ asciiBytes "TOKEN")⟩ :=
  ⟨(claim_C4 sampleConfig sampleSign [asciiBytes "email"]
      (asciiBytes "https://rp.example/back")
      [(asciiBytes "email", asciiBytes "user@example.com")] (asciiBytes "TOKEN")
      (by decide) (by decide) (by decide) (by rfl) (by rfl)).1 (by decide),
   (claim_C4 sampleConfig sampleSign [asciiBytes "email"]
      (asciiBytes "https://rp.example/back?x=1")
      [(asciiBytes "email", asciiBytes "user@example.com")] (asciiBytes "TOKEN")
      (by decide) (by decide) (by decide) (by rfl) (by rfl)).2 (by decide)⟩

/-- C5: the out-of-band redirect target is the decoded continuation URL
unchanged — no token appended — independently of the callback POST's outcome,
which is never propagated into the returned result. -/
theorem claim_C5 (cfg : Config) (signEncrypt : SignEncrypt) (po : PostOutcome)
    (names : List Bytes) (continuation attr_url : Bytes) (attrs : StrMap) (token : Bytes)
    (hn : ∀ s ∈ names, ∀ x ∈ s, x < 256) (hc : ∀ x ∈ continuation, x < 256)
    (hvc : isValidUtf8 continuation = true)
    (hu : ∀ x ∈ attr_url, x < 256) (hvu : isValidUtf8 attr_url = true)
    (hm : cfg.map_attributes names = .ok attrs)
    (hs : signEncrypt (buildAuthResult cfg attrs) = .ok token) :
    (∀ (A C U : Bytes) (po₁ po₂ : PostOutcome),
      (user_oob cfg signEncrypt po₁ A C U).map Prod.snd =
        (user_oob cfg signEncrypt po₂ A C U).map Prod.snd) ∧
    user_oob cfg signEncrypt po (b64Encode (jsonEncodeAttrNames names))
        (b64Encode continuation) (b64Encode attr_url) =
      .ok ([.post attr_url token po, .redirectTo continuation], ⟨continuation⟩) := by
  constructor
  · intro A C U po₁ po₂
    simp only [user_oob]
    repeat' first
      | rfl
      | split
  · have h1 : b64Decode (b64Encode (jsonEncodeAttrNames names)) =
        some (jsonEncodeAttrNames names) :=
      b64_roundtrip _ (jsonEncodeAttrNames_lt names hn)
    have h2 : b64Decode (b64Encode continuation) = some continuation := b64_roundtrip _ hc
    have h4 : b64Decode (b64Encode attr_url) = some attr_url := b64_roundtrip _ hu
    have h3 := parseAttrNames_encode names
    simp [user_oob, h1, h2, h3, h4, hm, hs, hvc, hvu]

/-- Witness for C5: a concrete run with a failing POST still redirects to the
untouched continuation. -/
theorem claim_C5_witness :
    user_oob sampleConfig sampleSign .failure
        (b64Encode (jsonEncodeAttrNames [asciiBytes "email"]))
        (b64Encode (asciiBytes "https://rp.example/back"))
        (b64Encode (asciiBytes "https://rp.example/cb")) =
      .ok ([.post (asciiBytes "https://rp.example/cb") (asciiBytes "TOKEN") .failure,
        .redirectTo (asciiBytes "https://rp.example/back")],
        ⟨asciiBytes "https://rp.example/back"⟩) :=
  (claim_C5 sampleConfig sampleSign .failure [asciiBytes "email"]
    (asciiBytes "https://rp.example/back") (asciiBytes "https://rp.example/cb")
    [(asciiBytes "email", asciiBytes "user@example.com")] (asciiBytes "TOKEN")
    (by decide) (by decide) (by decide) (by decide) (by decide) (by rfl) (by rfl)).2

/-- C6: the assertion built by the deliver operations always has status
Success, carries the resolved attribute mapping, and carries the
session-notification URL `{internal_url}/session/update` exactly when session
mode is enabled. -/
theorem claim_C6 (cfg : Config) (attrs : StrMap) :
    (buildAuthResult cfg attrs).status = AuthStatus.Success ∧
    (buildAuthResult cfg attrs).attributes = some attrs ∧
    (buildAuthResult cfg attrs).session_url =
      (if cfg.with_session then some (cfg.internal_url ++ asciiBytes "/session/update")
        else none) ∧
    (∀ u, (buildAuthResult cfg attrs).session_url = some u ↔
      (cfg.with_session = true ∧ u = cfg.internal_url ++ asciiBytes "/session/update")) := by
  refine ⟨rfl, rfl, rfl, ?_⟩
  intro u
  cases hw : cfg.with_session <;> simp [buildAuthResult, hw, eq_comm]

/-- Witness for C6 at the sample configuration (session mode enabled). -/
theorem claim_C6_witness :
    (buildAuthResult sampleConfig [(asciiBytes "email", asciiBytes "user@example.com")]).status =
      AuthStatus.Success ∧
    (buildAuthResult sampleConfig
        [(asciiBytes "email", asciiBytes "user@example.com")]).attributes =
      some [(asciiBytes "email", asciiBytes "user@example.com")] ∧
    (buildAuthResult sampleConfig
        [(asciiBytes "email", asciiBytes "user@example.com")]).session_url =
      (if sampleConfig.with_session then
        some (sampleConfig.internal_url ++ asciiBytes "/session/update")
        else none) ∧
    (∀ u, (buildAuthResult sampleConfig
        [(asciiBytes "email", asciiBytes "user@example.com")]).session_url = some u ↔
      (sampleConfig.with_session = true ∧
        u = sampleConfig.internal_url ++ asciiBytes "/session/update")) :=
  claim_C6 sampleConfig [(asciiBytes "email", asciiBytes "user@example.com")]

/-! ## Pass-through of the confirm step -/

theorem splitSeg_no_slash : ∀ a : Bytes, 0x2F ∉ a → splitSeg a = [a]
  | [], _ => rfl
  | b :: rest, h => by
    have hb : ¬ b = 0x2F := fun hh => h (hh ▸ List.mem_cons_self b rest)
    simp only [splitSeg, if_neg hb,
      splitSeg_no_slash rest (fun hm => h (List.mem_cons_of_mem b hm))]

theorem splitSeg_append (a r : Bytes) (ha : 0x2F ∉ a) :
    splitSeg (a ++ 0x2F :: r) = a :: splitSeg r := by
  induction a with
  | nil => simp [splitSeg]
  | cons b a' ih =>
    have hb : ¬ b = 0x2F := fun hh => ha (hh ▸ List.mem_cons_self b a')
    have ha' : 0x2F ∉ a' := fun hm => ha (List.mem_cons_of_mem b hm)
    simp only [List.cons_append, splitSeg, if_neg hb, List.append_eq, ih ha']

theorem dropStartBytes_append : ∀ p s : Bytes, dropStartBytes (p ++ s) p = some s
  | [], s => by simp [dropStartBytes]
  | q :: p', s => by simp [dropStartBytes, dropStartBytes_append p' s]

/-- C7: the delivery link embedded by the confirm endpoints carries the
received segments byte-identical and in order: stripping this server's
`/browser/` route root and splitting at the path separators recovers exactly
the segments the confirm endpoint received. -/
theorem claim_C7 (cfg : Config) (a c u : Bytes)
    (ha : 0x2F ∉ a) (hc : 0x2F ∉ c) (hu : 0x2F ∉ u) :
    browserSegments cfg (confirm_oob cfg a c u) = some [a, c, u] ∧
    browserSegments cfg (confirm_ib cfg a c) = some [a, c] := by
  constructor
  · have e : confirm_oob cfg a c u =
        (cfg.server_url ++ asciiBytes "/browser/") ++ (a ++ 0x2F :: (c ++ 0x2F :: u)) := by
      simp [confirm_oob, List.append_assoc]
    rw [browserSegments, e, dropStartBytes_append]
    simp only [Option.map_some']
    rw [splitSeg_append a _ ha, splitSeg_append c _ hc, splitSeg_no_slash u hu]
  · have e : confirm_ib cfg a c =
        (cfg.server_url ++ asciiBytes "/browser/") ++ (a ++ 0x2F :: c) := by
      simp [confirm_ib, List.append_assoc]
    rw [browserSegments, e, dropStartBytes_append]
    simp only [Option.map_some']
    rw [splitSeg_append a _ ha, splitSeg_no_slash c hc]

/-- Witness for C7 at concrete base64url segments (which never contain a
slash). -/
theorem claim_C7_witness :
    browserSegments sampleConfig
        (confirm_oob sampleConfig (asciiBytes "WyJlbWFpbCJd") (asciiBytes "aHR0cHM")
          (asciiBytes "Y2FsbGJhY2s")) =
      some [asciiBytes "WyJlbWFpbCJd", asciiBytes "aHR0cHM", asciiBytes "Y2FsbGJhY2s"] ∧
    browserSegments sampleConfig
        (confirm_ib sampleConfig (asciiBytes "WyJlbWFpbCJd") (asciiBytes "aHR0cHM")) =
      some [asciiBytes "WyJlbWFpbCJd", asciiBytes "aHR0cHM"] :=
  claim_C7 sampleConfig (asciiBytes "WyJlbWFpbCJd") (asciiBytes "aHR0cHM")
    (asciiBytes "Y2FsbGJhY2s") (by decide) (by decide) (by decide)

/-- C8: in every successful execution of `user_oob`, the completed POST of
the token to the callback URL precedes the browser redirect in the effect
trace — the trace is exactly the POST followed by the redirect to the
returned target. -/
theorem claim_C8 (cfg : Config) (signEncrypt : SignEncrypt) (po : PostOutcome)
    (A C U : Bytes) (tr : List Effect) (r : Redirect)
    (h : user_oob cfg signEncrypt po A C U = .ok (tr, r)) :
    ∃ url token, tr = [Effect.post url token po, Effect.redirectTo r.target] := by
  simp only [user_oob] at h
  repeat' split at h
  all_goals cases h
  exact ⟨_, _, rfl⟩

/-- Witness for C8: a concrete successful run, with a failing POST, whose
trace is the POST followed by the redirect. -/
theorem claim_C8_witness :
    ∃ url token,
      ([Effect.post (asciiBytes "https://rp.example/hook") (asciiBytes "TOKEN") .failure,
        Effect.redirectTo (asciiBytes "https://rp.example/done")] : List Effect) =
      [Effect.post url token .failure,
        Effect.redirectTo (Redirect.mk (asciiBytes "https://rp.example/done")).target] :=
  claim_C8 sampleConfig sampleSign .failure
    (b64Encode (jsonEncodeAttrNames [asciiBytes "email"]))
    (b64Encode (asciiBytes "https://rp.example/done"))
    (b64Encode (asciiBytes "https://rp.example/hook"))
    [Effect.post (asciiBytes "https://rp.example/hook") (asciiBytes "TOKEN") .failure,
      Effect.redirectTo (asciiBytes "https://rp.example/done")]
    ⟨asciiBytes "https://rp.example/done"⟩ (by rfl)

/-- Witness for C10 at a concrete catalog and a list with one unknown name. -/
theorem claim_C10_witness :
    (Config.verify_attributes sampleConfig [asciiBytes "phone"] = .ok () ↔
      ∃ m, Config.map_attributes sampleConfig [asciiBytes "phone"] = .ok m) ∧
    (∀ e, Config.verify_attributes sampleConfig [asciiBytes "phone"] = .error e ↔
      Config.map_attributes sampleConfig [asciiBytes "phone"] = .error e) ∧
    (∀ a, Config.verify_attributes sampleConfig [asciiBytes "phone"] =
        .error (.UnknownAttribute a) →
      [asciiBytes "phone"].find? (fun x => (hmGet sampleConfig.attributes x).isNone) =
        some a) :=
  claim_C10 sampleConfig [asciiBytes "phone"]

end AuthTest
